import Mathlib

/-!
# Link store of the URL shortener (`src/App.js`)

A shallow embedding of the store kept by `UrlProvider` (`addUrl`, `addClick`, the
`useState` initialiser), of `generateShortCode`, and of the effect body of `RedirectPage`.

Conventions of the embedding.

* The React state `urls` is passed explicitly: an operation takes the collection it sees and
  returns the collection after its `setUrls` update has been applied.
* Timestamps are the millisecond time values of the `Date` objects. The source stores them as
  ISO-8601 strings (`toISOString`), which determine the time value and are determined by it, and
  compares them through `new Date(...)`. The numbers involved are integers, on which the
  arithmetic of doubles is exact as long as the result is a time value; a result outside the
  range of `Date` (more than 8640000000000000 ms from the epoch) makes `toISOString` throw a
  RangeError, which `addUrl` does not catch. A reading of the clock is always a time value.
* What the environment supplies during a call (the values of `Math.random`, the clock readings,
  the output of `uuidv4`, `document.referrer`, the stored text of `localStorage`) is an explicit
  argument, so every theorem quantifies over it.
* The calls to the remote logger do not touch the store and are left out.
-/

namespace UrlShortener

/-! ## Data model -/

/-- Click event `{ time, source, location }` of line 67. -/
structure Click where
  time : Int
  source : String
  location : String
deriving DecidableEq

/-- Link record `{ id, longUrl, shortCode, createdAt, expiry, clicks }` of line 58. -/
structure UrlRecord where
  id : String
  longUrl : String
  shortCode : String
  createdAt : Int
  expiry : Int
  clicks : List Click
deriving DecidableEq

/-- The errors thrown by the platform functions the store calls: `JSON.parse` throws a
SyntaxError on a text that is not JSON, `toISOString` a RangeError on an invalid date. -/
inductive JsError where
  | syntaxError
  | rangeError
deriving DecidableEq

/-- The short codes of a collection, in record order. -/
def shortCodes (urls : List UrlRecord) : List String :=
  urls.map UrlRecord.shortCode

/-- Total number of click events held by a collection. -/
def totalClicks (urls : List UrlRecord) : Nat :=
  (urls.map (fun u => u.clicks.length)).sum

/-! ## Code generator -/

/-- JavaScript `s.substring(indexStart, indexEnd)` for non-negative integer arguments: both are
clamped to the length, swapped when out of order, and the characters in between are returned. -/
def substring (s : String) (indexStart indexEnd : Nat) : String :=
  let a := min indexStart s.length
  let b := min indexEnd s.length
  ⟨(s.data.drop (min a b)).take (max a b - min a b)⟩

/-- Line 37: `Math.random().toString(36).substring(2, 8)`. The argument `rendering` is the text
`Math.random().toString(36)` of the value drawn: `"0"` for the value 0, and otherwise `"0."`
followed by the base-36 digits of the fraction (`"0.i"` for the value 0.5, since 18/36 = 1/2). -/
def generateShortCode (rendering : String) : String :=
  substring rendering 2 8

/-! ## addUrl -/

/-- The values `addUrl` receives as `validity`: its caller passes `parseInt(...)`, an integer or
`NaN`, or the number 30; the falsy non-numbers are listed for the default of line 57. -/
inductive JsValidity where
  | undefined
  | null
  | nan
  | emptyString
  | number (n : Int)
deriving DecidableEq

/-- Line 57, `(validity || 30)`: the given number when it is truthy, else 30. -/
def validityOrDefault : JsValidity → Int
  | .number n => if n = 0 then 30 else n
  | _ => 30

/-- What the environment supplies during one call of `addUrl`. -/
structure AddUrlEnv where
  /-- Field `random k` is the base-36 rendering of the k-th `Math.random()` drawn in the call. -/
  random : Nat → String
  /-- Reading of `Date.now()` in line 57. -/
  dateNow : Int
  /-- Reading of `new Date()` in line 58. -/
  newDate : Int
  /-- Output of `uuidv4()`. -/
  uuid : String

/-- Line 52, `shortcode || generateShortCode()`: the candidate code, and how many random values
were drawn for it. `none` is an absent (`null`, `undefined`) argument; the empty string is falsy. -/
def candidateCode (shortcode : Option String) (env : AddUrlEnv) : String × Nat :=
  match shortcode with
  | some s => if s = "" then (generateShortCode (env.random 0), 1) else (s, 0)
  | none => (generateShortCode (env.random 0), 1)

/-- Line 53, `urls.find((u) => u.shortCode === code)`. -/
def findByCode (urls : List UrlRecord) (code : String) : Option UrlRecord :=
  urls.find? (fun u => u.shortCode == code)

/-- Lines 52-56: the code finally assigned. On a collision of the candidate one more code is
generated, and that one is not looked up. -/
def finalCode (urls : List UrlRecord) (shortcode : Option String) (env : AddUrlEnv) : String :=
  let candidate := candidateCode shortcode env
  if (findByCode urls candidate.1).isSome then generateShortCode (env.random candidate.2)
  else candidate.1

/-- Whether `t` is a time value: `new Date(t)` is a valid date exactly when `t` is at most
8640000000000000 ms from the epoch. -/
def inDateRange (t : Int) : Bool :=
  decide (-8640000000000000 ≤ t ∧ t ≤ 8640000000000000)

/-- Model of `new Date(t).toISOString()`: the time value the string stands for, and a RangeError
when the date is invalid. -/
def toISOString (t : Int) : Except JsError Int :=
  if inDateRange t then .ok t else .error .rangeError

/-- Line 57: the number `Date.now() + (validity || 30) * 60000` handed to `new Date`. -/
def expiryTime (validity : JsValidity) (env : AddUrlEnv) : Int :=
  env.dateNow + validityOrDefault validity * 60000

/-- Lines 51-62. The call returns the assigned code together with the collection after
`setUrls`, or it throws in line 57, before the record is built and before `setUrls`, when the
expiry is not a valid date. -/
def addUrl (urls : List UrlRecord) (longUrl : String) (validity : JsValidity)
    (shortcode : Option String) (env : AddUrlEnv) : Except JsError (String × List UrlRecord) :=
  let code := finalCode urls shortcode env
  match toISOString (expiryTime validity env) with
  | .error e => .error e
  | .ok expiry =>
    .ok (code, urls ++ [{ id := env.uuid, longUrl := longUrl, shortCode := code,
                          createdAt := env.newDate, expiry := expiry, clicks := [] }])

/-! ## addClick -/

/-- The `map` of lines 66-68 from position `i` on. Each record whose code matches gets one more
click at the end; `clock j` is the reading of `new Date()` taken while the record at position `j`
is rebuilt. -/
def addClickFrom (shortCode source location : String) (clock : Nat → Int) :
    Nat → List UrlRecord → List UrlRecord
  | _, [] => []
  | i, u :: rest =>
    (if u.shortCode = shortCode then
        { u with clicks := u.clicks ++ [{ time := clock i, source := source, location := location }] }
      else u) :: addClickFrom shortCode source location clock (i + 1) rest

/-- Lines 64-71. `none` for `source` or `location` is an omitted argument, which takes the
default of the parameter list. -/
def addClick (urls : List UrlRecord) (shortCode : String) (source location : Option String)
    (clock : Nat → Int) : List UrlRecord :=
  addClickFrom shortCode (source.getD "direct") (location.getD "Unknown") clock 0 urls

/-! ## Redirect handler -/

/-- The three ways the effect of `RedirectPage` ends. -/
inductive RedirectOutcome where
  /-- Lines 158-163: alert "Invalid or expired URL" and navigation to the root. -/
  | notFound
  /-- Lines 164-169: alert "This URL has expired" and navigation to the root. -/
  | expired
  /-- Line 171: `window.location.href` is set to the long URL. -/
  | redirected (href : String)
deriving DecidableEq

/-- Result of one run of the effect: how it ended, whether `addClick` was called, and the
collection afterwards. -/
structure RedirectResult where
  outcome : RedirectOutcome
  addClickCalled : Bool
  urls : List UrlRecord

/-- Lines 156-172. `now` is the reading of `new Date()` in line 164, `referrer` is
`document.referrer`, and `clock` serves the readings inside `addClick`. -/
def redirectEffect (urls : List UrlRecord) (shortCode : String) (now : Int) (referrer : String)
    (clock : Nat → Int) : RedirectResult :=
  match findByCode urls shortCode with
  | none => { outcome := .notFound, addClickCalled := false, urls := urls }
  | some urlObj =>
    if now > urlObj.expiry then
      { outcome := .expired, addClickCalled := false, urls := urls }
    else
      { outcome := .redirected urlObj.longUrl
        addClickCalled := true
        urls := addClick urls shortCode (some (if referrer = "" then "direct" else referrer))
          (some "Unknown") clock }

/-! ## Runs of store operations -/

/-- One call on the store, with what the environment supplies to it. -/
inductive Op where
  | addUrl (longUrl : String) (validity : JsValidity) (shortcode : Option String)
      (env : AddUrlEnv)
  | addClick (shortCode : String) (source location : Option String) (clock : Nat → Int)

/-- The collection after one call. A call of `addUrl` that throws has not reached `setUrls`
and leaves the collection as it was. -/
def step (urls : List UrlRecord) : Op → List UrlRecord
  | .addUrl longUrl validity shortcode env =>
    match addUrl urls longUrl validity shortcode env with
    | .ok r => r.2
    | .error _ => urls
  | .addClick shortCode source location clock => addClick urls shortCode source location clock

/-- The collection after a sequence of calls, applied in turn. -/
def run : List Op → List UrlRecord → List UrlRecord
  | [], urls => urls
  | op :: ops, urls => run ops (step urls op)

/-! ## Hydration from durable storage -/

/-- Value produced by `JSON.parse`. A number is kept as the decimal `mantissa * 10 ^ exponent`
its literal denotes, a string as its UTF-16 code units, an object as its members in the order of
the text. -/
inductive JsonValue where
  | null
  | bool (b : Bool)
  | number (mantissa : Int) (exponent : Int)
  | string (units : List Nat)
  | array (elements : List JsonValue)
  | object (members : List (List Nat × JsonValue))

/-- JSON white space: tab, line feed, carriage return, space. -/
def isJsonWhitespace (c : Char) : Bool :=
  c.toNat = 9 || c.toNat = 10 || c.toNat = 13 || c.toNat = 32

/-- Drops leading JSON white space. -/
def skipWhitespace : List Char → List Char
  | [] => []
  | c :: cs => if isJsonWhitespace c then skipWhitespace cs else c :: cs

/-- Removes the literal `lit` from the front of the input, if it is there. -/
def dropLiteral : List Char → List Char → Option (List Char)
  | [], cs => some cs
  | _ :: _, [] => none
  | l :: ls, c :: cs => if l = c then dropLiteral ls cs else none

/-- UTF-16 code units of a character of the text. -/
def utf16 (c : Char) : List Nat :=
  if c.toNat < 65536 then [c.toNat]
  else [55296 + (c.toNat - 65536) / 1024, 56320 + (c.toNat - 65536) % 1024]

/-- Value of a hexadecimal digit. -/
def hexDigit (c : Char) : Option Nat :=
  if 48 ≤ c.toNat ∧ c.toNat ≤ 57 then some (c.toNat - 48)
  else if 97 ≤ c.toNat ∧ c.toNat ≤ 102 then some (c.toNat - 87)
  else if 65 ≤ c.toNat ∧ c.toNat ≤ 70 then some (c.toNat - 55)
  else none

/-- Code unit of a single-character escape `\c`. -/
def simpleEscape (c : Char) : Option Nat :=
  if c.toNat = 34 then some 34
  else if c.toNat = 92 then some 92
  else if c.toNat = 47 then some 47
  else if c = 'b' then some 8
  else if c = 'f' then some 12
  else if c = 'n' then some 10
  else if c = 'r' then some 13
  else if c = 't' then some 9
  else none

/-- The rest of a string literal, after its opening quote: the code units up to the closing
quote, and the input after it. -/
def parseStringBody : List Char → Option (List Nat × List Char)
  | [] => none
  | c :: cs =>
    if c.toNat = 34 then some ([], cs)
    else if c.toNat = 92 then
      match cs with
      | [] => none
      | e :: rest =>
        if e = 'u' then
          match rest with
          | h1 :: h2 :: h3 :: h4 :: rest4 =>
            match hexDigit h1, hexDigit h2, hexDigit h3, hexDigit h4 with
            | some d1, some d2, some d3, some d4 =>
              match parseStringBody rest4 with
              | some (units, out) => some ((((d1 * 16 + d2) * 16 + d3) * 16 + d4) :: units, out)
              | none => none
            | _, _, _, _ => none
          | _ => none
        else
          match simpleEscape e with
          | some u =>
            match parseStringBody rest with
            | some (units, out) => some (u :: units, out)
            | none => none
          | none => none
    else if c.toNat < 32 then none
    else
      match parseStringBody cs with
      | some (units, out) => some (utf16 c ++ units, out)
      | none => none

/-- Leading decimal digits of the input, and what follows them. -/
def takeDigits : List Char → List Char × List Char
  | [] => ([], [])
  | c :: cs =>
    if c.isDigit then ((takeDigits cs).1.cons c, (takeDigits cs).2) else ([], c :: cs)

/-- Number denoted by a sequence of decimal digits. -/
def digitsValue (ds : List Char) : Nat :=
  ds.foldl (fun acc c => 10 * acc + (c.toNat - 48)) 0

/-- A JSON number: optional minus, `0` or a digit sequence without leading zero, optional
fraction, optional exponent. -/
def parseNumber (cs : List Char) : Option (JsonValue × List Char) :=
  let negative := cs.head? = some '-'
  let cs1 := if negative then cs.tail else cs
  let intPart : List Char × List Char :=
    if cs1.head? = some '0' then (['0'], cs1.tail) else takeDigits cs1
  if intPart.1 = [] then none
  else
    let fracPart : Option (List Char × List Char) :=
      if intPart.2.head? = some '.' then
        (if (takeDigits intPart.2.tail).1 = [] then none else some (takeDigits intPart.2.tail))
      else some ([], intPart.2)
    match fracPart with
    | none => none
    | some (fracDigits, cs3) =>
      let expPart : Option (Int × List Char) :=
        if cs3.head? = some 'e' ∨ cs3.head? = some 'E' then
          let cs4 := cs3.tail
          let expNegative := cs4.head? = some '-'
          let cs5 := if cs4.head? = some '-' ∨ cs4.head? = some '+' then cs4.tail else cs4
          if (takeDigits cs5).1 = [] then none
          else some
            (if expNegative then -(digitsValue (takeDigits cs5).1 : Int)
              else (digitsValue (takeDigits cs5).1 : Int), (takeDigits cs5).2)
        else some (0, cs3)
      match expPart with
      | none => none
      | some (e, out) =>
        let m : Int := digitsValue (intPart.1 ++ fracDigits)
        some (.number (if negative then -m else m) (e - fracDigits.length), out)

mutual
/-- One JSON value, after optional white space; `fuel` bounds the nesting of calls. -/
def parseValue : Nat → List Char → Option (JsonValue × List Char)
  | 0, _ => none
  | fuel + 1, cs =>
    match skipWhitespace cs with
    | [] => none
    | c :: rest =>
      if c = 'n' then
        match dropLiteral ['u', 'l', 'l'] rest with
        | some out => some (.null, out)
        | none => none
      else if c = 't' then
        match dropLiteral ['r', 'u', 'e'] rest with
        | some out => some (.bool true, out)
        | none => none
      else if c = 'f' then
        match dropLiteral ['a', 'l', 's', 'e'] rest with
        | some out => some (.bool false, out)
        | none => none
      else if c.toNat = 34 then
        match parseStringBody rest with
        | some (units, out) => some (.string units, out)
        | none => none
      else if c = '[' then
        match skipWhitespace rest with
        | [] => none
        | d :: rest1 =>
          if d = ']' then some (.array [], rest1)
          else
            match parseElements fuel (d :: rest1) with
            | some (elements, out) => some (.array elements, out)
            | none => none
      else if c.toNat = 123 then
        match skipWhitespace rest with
        | [] => none
        | d :: rest1 =>
          if d.toNat = 125 then some (.object [], rest1)
          else
            match parseMembers fuel (d :: rest1) with
            | some (members, out) => some (.object members, out)
            | none => none
      else parseNumber (c :: rest)
/-- The elements of a non-empty array, up to and including the closing bracket. -/
def parseElements : Nat → List Char → Option (List JsonValue × List Char)
  | 0, _ => none
  | fuel + 1, cs =>
    match parseValue fuel cs with
    | none => none
    | some (v, rest) =>
      match skipWhitespace rest with
      | [] => none
      | d :: rest1 =>
        if d = ',' then
          match parseElements fuel rest1 with
          | some (vs, out) => some (v :: vs, out)
          | none => none
        else if d = ']' then some ([v], rest1)
        else none
/-- The members of a non-empty object, up to and including the closing brace. -/
def parseMembers : Nat → List Char → Option (List (List Nat × JsonValue) × List Char)
  | 0, _ => none
  | fuel + 1, cs =>
    match skipWhitespace cs with
    | [] => none
    | q :: rest =>
      if q.toNat = 34 then
        match parseStringBody rest with
        | none => none
        | some (key, rest1) =>
          match skipWhitespace rest1 with
          | [] => none
          | colon :: rest2 =>
            if colon = ':' then
              match parseValue fuel rest2 with
              | none => none
              | some (v, rest3) =>
                match skipWhitespace rest3 with
                | [] => none
                | d :: rest4 =>
                  if d = ',' then
                    match parseMembers fuel rest4 with
                    | some (ms, out) => some ((key, v) :: ms, out)
                    | none => none
                  else if d.toNat = 125 then some ([(key, v)], rest4)
                  else none
            else none
      else none
end

/-- Model of `JSON.parse(text)`: the value of a text that is one JSON value between optional white space,
and a `SyntaxError` for every other text. -/
def JSON_parse (text : String) : Except JsError JsonValue :=
  match parseValue (2 * text.length + 2) text.data with
  | some (v, rest) => if skipWhitespace rest = [] then .ok v else .error .syntaxError
  | none => .error .syntaxError

/-- JavaScript truthiness of a parsed value: `null`, `false`, the empty string and a number
that is zero are falsy. A literal denotes zero as a double when its value is zero or at most
`2 ^ (-1075)` in magnitude, half of the least positive double. -/
def truthy : JsonValue → Bool
  | .null => false
  | .bool b => b
  | .number mantissa exponent =>
    !(mantissa = 0 || (exponent < 0 && mantissa.natAbs * 2 ^ 1075 ≤ 10 ^ exponent.natAbs))
  | .string units => !units.isEmpty
  | .array _ => true
  | .object _ => true

/-- Line 44, the initialiser `() => JSON.parse(localStorage.getItem("urls")) || []`.
`stored` is what `getItem` returns, `none` for `null` (no entry under the key); `JSON.parse`
converts its argument to a string first, so `null` is parsed as the text `null`. An error of
`JSON.parse` is not caught and leaves the initialiser. -/
def initialUrls (stored : Option String) : Except JsError JsonValue :=
  match JSON_parse (stored.getD "null") with
  | .error e => .error e
  | .ok v => .ok (if truthy v then v else .array [])

/-! ## Sequences of calls -/

/-- Arguments of one `addUrl` call, with what the environment supplies to it. -/
structure AddUrlCall where
  longUrl : String
  validity : JsValidity
  shortcode : Option String
  env : AddUrlEnv

/-- Calls of `addUrl` applied in turn: what each call returned or threw, in call order, and the
final collection. A call that throws leaves the collection to the next call as it was. -/
def addUrls : List AddUrlCall → List UrlRecord → List (Except JsError String) × List UrlRecord
  | [], urls => ([], urls)
  | call :: calls, urls =>
    match addUrl urls call.longUrl call.validity call.shortcode call.env with
    | .ok r => (.ok r.1 :: (addUrls calls r.2).1, (addUrls calls r.2).2)
    | .error e => (.error e :: (addUrls calls urls).1, (addUrls calls urls).2)

/-- Whether the call, made on `urls`, either meets no collision or regenerates a code that no
record of `urls` has. -/
def regenerationFresh (urls : List UrlRecord) : Op → Bool
  | .addUrl _ _ shortcode env =>
    !(findByCode urls (candidateCode shortcode env).1).isSome ||
      !(shortCodes urls).contains (generateShortCode (env.random (candidateCode shortcode env).2))
  | .addClick _ _ _ _ => true

/-- Whether every call of the sequence, made in turn from `urls`, satisfies
`regenerationFresh` on the collection it sees. -/
def regenerationsFresh : List Op → List UrlRecord → Bool
  | [], _ => true
  | op :: ops, urls => regenerationFresh urls op && regenerationsFresh ops (step urls op)

/-! ## Concrete inputs -/

/-- Environment in which `Math.random()` returns 0.5 at every draw (rendered `0.i` in base 36),
`Date.now()` reads 1700000000000 and `new Date()`, one line later, reads 1700000000001. -/
def envHalf : AddUrlEnv :=
  { random := fun _ => "0.i", dateNow := 1700000000000, newDate := 1700000000001, uuid := "id-1" }

/-- Environment in which `Math.random()` returns 1/4096 at the first draw (rendered `0.00be29`
in base 36, as 1/4096 = 531441/36^6 and 531441 = 11 * 36^3 + 14 * 36^2 + 2 * 36 + 9) and 3/4096
at every later draw (rendered `0.00y66r`), and both clock readings are 1700000000000. -/
def envLong : AddUrlEnv :=
  { random := fun k => if k = 0 then "0.00be29" else "0.00y66r"
    dateNow := 1700000000000, newDate := 1700000000000, uuid := "id-2" }

/-- Collection holding one record, whose code is `i`. -/
def storeI : List UrlRecord :=
  [{ id := "id-0", longUrl := "https://example.com", shortCode := "i",
     createdAt := 1700000000000, expiry := 1700001800000, clicks := [] }]

/-- Two `addUrl` calls that both request the custom code `i`, in the environment `envHalf`. -/
def twiceI : List Op :=
  [.addUrl "https://example.com/a" .undefined (some "i") envHalf,
   .addUrl "https://example.com/b" .undefined (some "i") envHalf]

/-- Four calls from the empty collection: the code `i` is requested, clicked, and requested
again (a collision, regenerated as `00be29`); then a code is generated that collides with that
one and is regenerated as `00y66r`. -/
def freshRun : List Op :=
  [.addUrl "https://example.com/a" (.number 5) (some "i") envHalf,
   .addClick "i" none none (fun _ => 1700000000002),
   .addUrl "https://example.com/b" .undefined (some "i") envLong,
   .addUrl "https://example.com/c" .nan none envLong]

/-- A validity the form can submit (`parseInt("143971666667")`): with `Date.now()` reading
1700000000000 the expiry would be 8640000000020000 ms, past the last valid date. -/
def hugeValidity : JsValidity :=
  .number 143971666667

/-- One `addUrl` call with the validity `hugeValidity`. -/
def hugeCall : AddUrlCall :=
  { longUrl := "https://example.com/h", validity := hugeValidity, shortcode := some "a",
    env := envHalf }

/-- Two `addUrl` calls that both request the code `k`, the first valid for 1 minute and the
second, whose regeneration draws `Math.random() = 20/36` (rendered `0.k`), for 60 minutes. -/
def staggeredK : List Op :=
  [.addUrl "https://example.com/first" (.number 1) (some "k")
      { random := fun _ => "0.k", dateNow := 1700000000000, newDate := 1700000000000,
        uuid := "id-3" },
   .addUrl "https://example.com/second" (.number 60) (some "k")
      { random := fun _ => "0.k", dateNow := 1700000000000, newDate := 1700000000000,
        uuid := "id-4" }]

/-- Three `addUrl` calls with the long URLs `/a`, `/b`, `/c`; the third requests the code the
first was given. -/
def threeCalls : List AddUrlCall :=
  [{ longUrl := "https://example.com/a", validity := .number 1, shortcode := some "i",
     env := envHalf },
   { longUrl := "https://example.com/b", validity := .undefined, shortcode := none,
     env := envLong },
   { longUrl := "https://example.com/c", validity := .number (-5), shortcode := some "i",
     env := envLong }]

/-- The record of `storeI`. -/
def redirectTarget : UrlRecord :=
  { id := "id-0", longUrl := "https://example.com", shortCode := "i",
    createdAt := 1700000000000, expiry := 1700001800000, clicks := [] }

/-! ## Auxiliary facts -/

theorem findByCode_isSome_iff (urls : List UrlRecord) (code : String) :
    (findByCode urls code).isSome = true ↔ code ∈ shortCodes urls := by
  simp [findByCode, shortCodes, List.find?_isSome]

theorem findByCode_eq_none_iff (urls : List UrlRecord) (code : String) :
    findByCode urls code = none ↔ code ∉ shortCodes urls := by
  simp [findByCode, shortCodes]

theorem findByCode_some (urls : List UrlRecord) (code : String) (u : UrlRecord)
    (h : findByCode urls code = some u) : u ∈ urls ∧ u.shortCode = code := by
  unfold findByCode at h
  have h1 := List.find?_some h
  have h2 := List.mem_of_find?_eq_some h
  exact ⟨h2, by simpa using h1⟩

theorem substring_length_le (s : String) : (substring s 2 8).length ≤ 6 := by
  simp only [substring, String.length, List.length_take, List.length_drop]
  omega

theorem substring_length_eq (s : String) (h : 8 ≤ s.length) : (substring s 2 8).length = 6 := by
  simp only [String.length] at h
  simp only [substring, String.length, List.length_take, List.length_drop]
  omega

theorem finalCode_of_not_mem (urls : List UrlRecord) (shortcode : Option String) (env : AddUrlEnv)
    (h : (candidateCode shortcode env).1 ∉ shortCodes urls) :
    finalCode urls shortcode env = (candidateCode shortcode env).1 := by
  have h1 : ¬ (findByCode urls (candidateCode shortcode env).1).isSome = true := by
    rw [findByCode_isSome_iff]; exact h
  simp [finalCode, h1]

theorem finalCode_of_mem (urls : List UrlRecord) (shortcode : Option String) (env : AddUrlEnv)
    (h : (candidateCode shortcode env).1 ∈ shortCodes urls) :
    finalCode urls shortcode env =
      generateShortCode (env.random (candidateCode shortcode env).2) := by
  have h1 : (findByCode urls (candidateCode shortcode env).1).isSome = true := by
    rw [findByCode_isSome_iff]; exact h
  simp [finalCode, h1]

theorem shortCodes_addClickFrom (shortCode source location : String) (clock : Nat → Int)
    (i : Nat) (urls : List UrlRecord) :
    shortCodes (addClickFrom shortCode source location clock i urls) = shortCodes urls := by
  induction urls generalizing i with
  | nil => rfl
  | cons u rest ih =>
    have ih1 := ih (i + 1)
    simp only [shortCodes, List.map_cons] at ih1 ⊢
    simp only [addClickFrom, List.map_cons, ih1]
    split <;> rfl

theorem addUrl_of_inDateRange (urls : List UrlRecord) (longUrl : String) (validity : JsValidity)
    (shortcode : Option String) (env : AddUrlEnv)
    (h : inDateRange (expiryTime validity env) = true) :
    addUrl urls longUrl validity shortcode env =
      .ok (finalCode urls shortcode env,
        urls ++ [{ id := env.uuid, longUrl := longUrl, shortCode := finalCode urls shortcode env,
                   createdAt := env.newDate, expiry := expiryTime validity env, clicks := [] }]) := by
  simp [addUrl, toISOString, h]

theorem addUrl_of_not_inDateRange (urls : List UrlRecord) (longUrl : String)
    (validity : JsValidity) (shortcode : Option String) (env : AddUrlEnv)
    (h : inDateRange (expiryTime validity env) = false) :
    addUrl urls longUrl validity shortcode env = .error .rangeError := by
  simp [addUrl, toISOString, h]

theorem shortCodes_step_addUrl (urls : List UrlRecord) (longUrl : String) (validity : JsValidity)
    (shortcode : Option String) (env : AddUrlEnv) :
    shortCodes (step urls (.addUrl longUrl validity shortcode env)) =
        shortCodes urls ++ [finalCode urls shortcode env] ∨
      shortCodes (step urls (.addUrl longUrl validity shortcode env)) = shortCodes urls := by
  cases h : inDateRange (expiryTime validity env) with
  | true =>
    left
    simp [step, addUrl_of_inDateRange urls longUrl validity shortcode env h, shortCodes]
  | false =>
    right
    simp [step, addUrl_of_not_inDateRange urls longUrl validity shortcode env h]

theorem nodup_run (ops : List Op) (urls : List UrlRecord) (hn : (shortCodes urls).Nodup)
    (h : regenerationsFresh ops urls = true) : (shortCodes (run ops urls)).Nodup := by
  induction ops generalizing urls with
  | nil => exact hn
  | cons op ops ih =>
    simp only [regenerationsFresh, Bool.and_eq_true] at h
    apply ih (step urls op) _ h.2
    cases op with
    | addClick shortCode source location clock =>
      simp only [step, addClick, shortCodes_addClickFrom]
      exact hn
    | addUrl longUrl validity shortcode env =>
      have h1 := h.1
      rcases shortCodes_step_addUrl urls longUrl validity shortcode env with hs | hs
      · rw [hs, List.nodup_append]
        refine ⟨hn, List.nodup_singleton _, ?_⟩
        simp only [List.disjoint_singleton]
        by_cases hc : (candidateCode shortcode env).1 ∈ shortCodes urls
        · rw [finalCode_of_mem urls shortcode env hc]
          have h2 := (findByCode_isSome_iff urls _).2 hc
          simpa [regenerationFresh, h2] using h1
        · rw [finalCode_of_not_mem urls shortcode env hc]
          exact hc
      · rw [hs]
        exact hn

theorem addClickFrom_length (shortCode source location : String) (clock : Nat → Int)
    (k : Nat) (urls : List UrlRecord) :
    (addClickFrom shortCode source location clock k urls).length = urls.length := by
  induction urls generalizing k with
  | nil => rfl
  | cons u rest ih => simp [addClickFrom, ih]

theorem addClickFrom_getElem? (shortCode source location : String) (clock : Nat → Int)
    (k : Nat) (urls : List UrlRecord) (i : Nat) :
    (addClickFrom shortCode source location clock k urls)[i]? =
      (urls[i]?).map (fun u =>
        if u.shortCode = shortCode then
          { u with clicks := u.clicks ++
              [{ time := clock (k + i), source := source, location := location }] }
        else u) := by
  induction urls generalizing k i with
  | nil => simp [addClickFrom]
  | cons u rest ih =>
    cases i with
    | zero => simp [addClickFrom]
    | succ j =>
      simp only [addClickFrom, List.getElem?_cons_succ]
      rw [ih (k + 1) j]
      have : k + 1 + j = k + (j + 1) := by omega
      rw [this]

theorem totalClicks_addClickFrom (shortCode source location : String) (clock : Nat → Int)
    (k : Nat) (urls : List UrlRecord) :
    totalClicks (addClickFrom shortCode source location clock k urls) =
      totalClicks urls + (shortCodes urls).count shortCode := by
  induction urls generalizing k with
  | nil => rfl
  | cons u rest ih =>
    have ih1 := ih (k + 1)
    simp only [totalClicks, shortCodes] at ih1 ⊢
    simp only [addClickFrom, List.map_cons, List.sum_cons, ih1, List.count_cons]
    by_cases h : u.shortCode = shortCode
    · simp [h]; omega
    · simp [h]; omega

theorem addClickFrom_of_not_mem (shortCode source location : String) (clock : Nat → Int)
    (k : Nat) (urls : List UrlRecord) (h : ∀ u ∈ urls, u.shortCode ≠ shortCode) :
    addClickFrom shortCode source location clock k urls = urls := by
  induction urls generalizing k with
  | nil => rfl
  | cons u rest ih =>
    have hu : u.shortCode ≠ shortCode := h u (List.mem_cons_self _ _)
    have hr : ∀ v ∈ rest, v.shortCode ≠ shortCode := fun v hv => h v (List.mem_cons_of_mem _ hv)
    simp [addClickFrom, hu, ih (k + 1) hr]

theorem addUrls_spec (calls : List AddUrlCall) (urls : List UrlRecord)
    (hrange : ∀ call ∈ calls, inDateRange (expiryTime call.validity call.env) = true) :
    (addUrls calls urls).2.length = urls.length + calls.length ∧
      (addUrls calls urls).2.map UrlRecord.longUrl =
        urls.map UrlRecord.longUrl ++ calls.map AddUrlCall.longUrl ∧
      (shortCodes (addUrls calls urls).2).map Except.ok =
        (shortCodes urls).map Except.ok ++ (addUrls calls urls).1 := by
  induction calls generalizing urls with
  | nil => simp [addUrls]
  | cons call calls ih =>
    have hc := hrange call (List.mem_cons_self _ _)
    have hr : ∀ c ∈ calls, inDateRange (expiryTime c.validity c.env) = true :=
      fun c hm => hrange c (List.mem_cons_of_mem _ hm)
    have ha := addUrl_of_inDateRange urls call.longUrl call.validity call.shortcode call.env hc
    obtain ⟨h1, h2, h3⟩ := ih (urls ++ [UrlRecord.mk call.env.uuid call.longUrl
      (finalCode urls call.shortcode call.env) call.env.newDate
      (expiryTime call.validity call.env) []]) hr
    simp only [addUrls, ha]
    refine ⟨?_, ?_, ?_⟩
    · rw [h1]; simp; omega
    · rw [h2]; simp
    · rw [h3]; simp [shortCodes]

theorem addUrls_append (calls1 calls2 : List AddUrlCall) (urls : List UrlRecord) :
    addUrls (calls1 ++ calls2) urls =
      ((addUrls calls1 urls).1 ++ (addUrls calls2 (addUrls calls1 urls).2).1,
        (addUrls calls2 (addUrls calls1 urls).2).2) := by
  induction calls1 generalizing urls with
  | nil => simp [addUrls]
  | cons call calls ih =>
    cases h : addUrl urls call.longUrl call.validity call.shortcode call.env with
    | ok r => simp [addUrls, h, ih]
    | error e => simp [addUrls, h, ih]

theorem findByCode_of_unique (urls : List UrlRecord) (code : String) (u : UrlRecord)
    (hcount : (shortCodes urls).count code ≤ 1) (hu : u ∈ urls) (hc : u.shortCode = code) :
    findByCode urls code = some u := by
  induction urls with
  | nil => cases hu
  | cons v rest ih =>
    simp only [shortCodes, List.map_cons, List.count_cons] at hcount
    by_cases hv : v.shortCode = code
    · have h0 : (List.map UrlRecord.shortCode rest).count code = 0 := by
        simp [hv] at hcount
        simpa using hcount
      have hnot : code ∉ List.map UrlRecord.shortCode rest := List.count_eq_zero.1 h0
      rcases List.mem_cons.1 hu with h | h
      · simp [findByCode, List.find?_cons, hv, h]
      · exact absurd (List.mem_map.2 ⟨u, h, hc⟩) hnot
    · have hne : u ≠ v := fun h => hv (h ▸ hc)
      have hur : u ∈ rest := by
        rcases List.mem_cons.1 hu with h | h
        · exact absurd h hne
        · exact h
      have hcount1 : (shortCodes rest).count code ≤ 1 := by
        simp [hv] at hcount
        simpa [shortCodes] using hcount
      have := ih hcount1 hur
      simp only [findByCode] at this ⊢
      simp [List.find?_cons, hv, this]

/-! ## Claims -/

/-- C1, counterexample: two `addUrl` calls from the empty collection that both request the code
`i`, the second regenerating with `Math.random() = 0.5`, leave two records whose code is `i`. -/
theorem duplicate_codes_reachable :
    shortCodes (run twiceI []) = ["i", "i"] ∧ ¬ (shortCodes (run twiceI [])).Nodup := by
  decide

/-- C1, amended: in every collection reached from the empty one by `addUrl` and `addClick`
calls in which each code regenerated after a collision is the code of no record already present,
no two records have the same shortCode. -/
theorem unique_codes_of_fresh_regenerations (ops : List Op)
    (h : regenerationsFresh ops [] = true) : (shortCodes (run ops [])).Nodup :=
  nodup_run ops [] List.nodup_nil h

/-- C1, the amended claim at a run of four calls with two collisions. -/
theorem unique_codes_of_fresh_regenerations_witness :
    regenerationsFresh freshRun [] = true ∧
      shortCodes (run freshRun []) = ["i", "00be29", "00y66r"] ∧
      (shortCodes (run freshRun [])).Nodup :=
  ⟨by decide, by decide, unique_codes_of_fresh_regenerations freshRun (by decide)⟩

/-- C2, counterexample: the code `i` is requested while a record has it, the regeneration draws
`Math.random() = 0.5`, and the call returns `i`, the requested code. -/
theorem regenerated_code_may_equal_requested :
    "i" ∈ shortCodes storeI ∧
      ∃ urls1 : List UrlRecord,
        addUrl storeI "https://example.com/b" (.number 1) (some "i") envHalf =
          .ok ("i", urls1) :=
  ⟨by decide, _, rfl⟩

/-- C2, amended: when the requested custom code is the shortCode of an existing record and the
expiry time `Date.now() + validityMinutes * 60000` is a valid date, `addUrl` returns the
regenerated code, the characters 2 to 7 of the rendering of one `Math.random()` value; the code
returned differs from the requested one exactly when that generated code does. When the expiry
time is not a valid date the call throws a RangeError and returns no code. -/
theorem addUrl_collision_returns_regenerated (urls : List UrlRecord) (longUrl : String)
    (validity : JsValidity) (requested : String) (env : AddUrlEnv)
    (hne : requested ≠ "") (hmem : requested ∈ shortCodes urls) :
    (inDateRange (expiryTime validity env) = true →
      ∃ urls1 : List UrlRecord,
        addUrl urls longUrl validity (some requested) env =
          .ok (generateShortCode (env.random 0), urls1)) ∧
    (inDateRange (expiryTime validity env) = false →
      addUrl urls longUrl validity (some requested) env = .error .rangeError) ∧
    (∀ (code : String) (urls1 : List UrlRecord),
      addUrl urls longUrl validity (some requested) env = .ok (code, urls1) →
        code = generateShortCode (env.random 0) ∧
        (code ≠ requested ↔ generateShortCode (env.random 0) ≠ requested)) := by
  have hc : candidateCode (some requested) env = (requested, 0) := by
    simp [candidateCode, hne]
  have h1 : finalCode urls (some requested) env = generateShortCode (env.random 0) := by
    have h2 := finalCode_of_mem urls (some requested) env (by rw [hc]; exact hmem)
    rw [hc] at h2
    exact h2
  refine ⟨?_, addUrl_of_not_inDateRange urls longUrl validity (some requested) env, ?_⟩
  · intro hr
    rw [addUrl_of_inDateRange urls longUrl validity (some requested) env hr, h1]
    exact ⟨_, rfl⟩
  · intro code urls1 hok
    cases hr : inDateRange (expiryTime validity env) with
    | false =>
      rw [addUrl_of_not_inDateRange urls longUrl validity (some requested) env hr] at hok
      cases hok
    | true =>
      rw [addUrl_of_inDateRange urls longUrl validity (some requested) env hr, h1] at hok
      injection hok with hok
      injection hok with hcode _
      exact ⟨hcode.symm, by rw [← hcode]⟩

/-- C2, the amended claim at a collision on `i` regenerated as `00be29`, and at the same request
with a validity that puts the expiry past the last valid date. -/
theorem addUrl_collision_returns_regenerated_witness :
    (∃ urls1 : List UrlRecord,
        addUrl storeI "https://example.com/b" (.number 1) (some "i") envLong =
          .ok ("00be29", urls1)) ∧
      addUrl storeI "https://example.com/b" hugeValidity (some "i") envLong =
        .error .rangeError :=
  ⟨(addUrl_collision_returns_regenerated storeI "https://example.com/b" (.number 1) "i"
      envLong (by decide) (by decide)).1 (by decide),
    (addUrl_collision_returns_regenerated storeI "https://example.com/b" hugeValidity "i"
      envLong (by decide) (by decide)).2.1 (by decide)⟩

/-- C3, counterexample: with no custom code and `Math.random() = 0.5` the call on the empty
collection returns `i`, a code of one character, and the call on a collection that holds a
record with code `i` returns `i` again, a code that is present. -/
theorem generated_code_short_or_present :
    (∃ urls1 : List UrlRecord,
        addUrl [] "https://example.com" (.number 1) none envHalf = .ok ("i", urls1)) ∧
      ("i" : String).length ≠ 6 ∧
      (∃ urls1 : List UrlRecord,
        addUrl storeI "https://example.com" (.number 1) none envHalf = .ok ("i", urls1)) ∧
      "i" ∈ shortCodes storeI :=
  ⟨⟨_, rfl⟩, by decide, ⟨_, rfl⟩, by decide⟩

/-- C3, amended: when the expiry time `Date.now() + validityMinutes * 60000` is a valid date,
`addUrl` called with no custom code returns a code of at most 6 characters. The code is the
first generated code when no record has that code, else the second generated code; it has
exactly 6 characters when the base-36 rendering it is cut from has at least 8, and it is the
shortCode of no record already present when the first or the second generated code is not.
When the expiry time is not a valid date the call throws a RangeError and returns no code. -/
theorem addUrl_generated_code (urls : List UrlRecord) (longUrl : String) (validity : JsValidity)
    (shortcode : Option String) (env : AddUrlEnv)
    (hno : shortcode = none ∨ shortcode = some "") :
    (inDateRange (expiryTime validity env) = true →
      ∃ (code : String) (urls1 : List UrlRecord),
        addUrl urls longUrl validity shortcode env = .ok (code, urls1) ∧
        code.length ≤ 6 ∧
        (generateShortCode (env.random 0) ∉ shortCodes urls →
          code = generateShortCode (env.random 0) ∧
          (8 ≤ (env.random 0).length → code.length = 6)) ∧
        (generateShortCode (env.random 0) ∈ shortCodes urls →
          code = generateShortCode (env.random 1) ∧
          (8 ≤ (env.random 1).length → code.length = 6)) ∧
        (generateShortCode (env.random 0) ∉ shortCodes urls ∨
            generateShortCode (env.random 1) ∉ shortCodes urls →
          code ∉ shortCodes urls)) ∧
    (inDateRange (expiryTime validity env) = false →
      addUrl urls longUrl validity shortcode env = .error .rangeError) := by
  have hc : candidateCode shortcode env = (generateShortCode (env.random 0), 1) := by
    rcases hno with h | h <;> simp [candidateCode, h]
  have hin : generateShortCode (env.random 0) ∈ shortCodes urls →
      finalCode urls shortcode env = generateShortCode (env.random 1) := by
    intro h
    have h2 := finalCode_of_mem urls shortcode env (by rw [hc]; exact h)
    rw [hc] at h2
    exact h2
  have hout : generateShortCode (env.random 0) ∉ shortCodes urls →
      finalCode urls shortcode env = generateShortCode (env.random 0) := by
    intro h
    have h2 := finalCode_of_not_mem urls shortcode env (by rw [hc]; exact h)
    rw [hc] at h2
    exact h2
  refine ⟨?_, addUrl_of_not_inDateRange urls longUrl validity shortcode env⟩
  intro hr
  refine ⟨finalCode urls shortcode env, _,
    addUrl_of_inDateRange urls longUrl validity shortcode env hr, ?_, ?_, ?_, ?_⟩
  · by_cases h : generateShortCode (env.random 0) ∈ shortCodes urls
    · rw [hin h]; exact substring_length_le _
    · rw [hout h]; exact substring_length_le _
  · intro h
    refine ⟨hout h, fun h0 => ?_⟩
    rw [hout h]; exact substring_length_eq _ h0
  · intro h
    refine ⟨hin h, fun h1 => ?_⟩
    rw [hin h]; exact substring_length_eq _ h1
  · intro hor
    by_cases h : generateShortCode (env.random 0) ∈ shortCodes urls
    · rw [hin h]
      rcases hor with h3 | h3
      · exact absurd h h3
      · exact h3
    · rw [hout h]; exact h

/-- C3, the amended claim at a collection whose only code is `i`: the first generated code,
`00be29`, is returned; with a validity that puts the expiry past the last valid date the call
throws. -/
theorem addUrl_generated_code_witness :
    (∃ (code : String) (urls1 : List UrlRecord),
        addUrl storeI "https://example.com/d" .undefined none envLong = .ok (code, urls1) ∧
        code = "00be29" ∧ code.length = 6 ∧ code ∉ shortCodes storeI) ∧
      addUrl storeI "https://example.com/d" hugeValidity none envLong = .error .rangeError := by
  obtain ⟨code, urls1, h1, _, h3, _, h5⟩ :=
    (addUrl_generated_code storeI "https://example.com/d" .undefined none envLong
      (Or.inl rfl)).1 (by decide)
  have h3a := h3 (by decide)
  exact ⟨⟨code, urls1, h1, h3a.1.trans (by decide), h3a.2 (by decide),
      h5 (Or.inl (by decide))⟩,
    (addUrl_generated_code storeI "https://example.com/d" hugeValidity none envLong
      (Or.inl rfl)).2 (by decide)⟩

/-- C4, counterexample: no record has the code `a`, yet the call that requests it with the
validity 143971666667 returns nothing: the expiry would be 8640000000020000 ms, `toISOString`
throws a RangeError in line 57, and no record is appended. -/
theorem addUrl_free_code_may_throw :
    (∀ u ∈ storeI, u.shortCode ≠ "a") ∧
      expiryTime hugeValidity envHalf = 8640000000020000 ∧
      addUrl storeI "https://example.com/h" hugeValidity (some "a") envHalf =
        .error .rangeError ∧
      step storeI (.addUrl "https://example.com/h" hugeValidity (some "a") envHalf) = storeI :=
  ⟨by decide, by decide, rfl, by decide⟩

/-- C4, amended: when the expiry time `Date.now() + validityMinutes * 60000` is a valid date, a
non-empty requested code that no record has is returned as it is, and the record appended holds
it together with the given longUrl and no clicks; whatever code is requested, such a call
appends one record at the end and returns the shortCode of that record. When the expiry time is
not a valid date the call throws a RangeError, returns no code and appends nothing. -/
theorem addUrl_keeps_free_custom_code (urls : List UrlRecord) (longUrl : String)
    (validity : JsValidity) (requested : String) (env : AddUrlEnv)
    (hne : requested ≠ "") (hfree : ∀ u ∈ urls, u.shortCode ≠ requested) :
    (inDateRange (expiryTime validity env) = true →
      ∃ r : UrlRecord,
        addUrl urls longUrl validity (some requested) env = .ok (requested, urls ++ [r]) ∧
        r.shortCode = requested ∧ r.longUrl = longUrl ∧ r.clicks = []) ∧
    (inDateRange (expiryTime validity env) = false →
      addUrl urls longUrl validity (some requested) env = .error .rangeError ∧
      step urls (.addUrl longUrl validity (some requested) env) = urls) ∧
    (∀ (shortcode : Option String) (validity1 : JsValidity) (env1 : AddUrlEnv),
      inDateRange (expiryTime validity1 env1) = true →
      ∃ r : UrlRecord,
        addUrl urls longUrl validity1 shortcode env1 = .ok (r.shortCode, urls ++ [r]) ∧
        r.longUrl = longUrl ∧ r.clicks = []) := by
  have hc : candidateCode (some requested) env = (requested, 0) := by
    simp [candidateCode, hne]
  have hnot : requested ∉ shortCodes urls := by
    intro hm
    obtain ⟨u, hu, he⟩ := List.mem_map.1 hm
    exact hfree u hu he
  have h1 : finalCode urls (some requested) env = requested := by
    have h2 := finalCode_of_not_mem urls (some requested) env (by rw [hc]; exact hnot)
    rw [hc] at h2
    exact h2
  refine ⟨?_, ?_, ?_⟩
  · intro hr
    rw [addUrl_of_inDateRange urls longUrl validity (some requested) env hr, h1]
    exact ⟨_, rfl, rfl, rfl, rfl⟩
  · intro hr
    have he := addUrl_of_not_inDateRange urls longUrl validity (some requested) env hr
    exact ⟨he, by simp [step, he]⟩
  · intro shortcode validity1 env1 hr
    rw [addUrl_of_inDateRange urls longUrl validity1 shortcode env1 hr]
    exact ⟨UrlRecord.mk env1.uuid longUrl (finalCode urls shortcode env1) env1.newDate
      (expiryTime validity1 env1) [], rfl, rfl, rfl⟩

/-- C4, the amended claim at a collection whose only code is `i` and the requested code
`promo`, with the validity 10 and with one that puts the expiry past the last valid date. -/
theorem addUrl_keeps_free_custom_code_witness :
    (∃ r : UrlRecord,
        addUrl storeI "https://example.com/p" (.number 10) (some "promo") envHalf =
          .ok ("promo", storeI ++ [r]) ∧
        r.shortCode = "promo" ∧ r.longUrl = "https://example.com/p" ∧ r.clicks = []) ∧
      addUrl storeI "https://example.com/p" hugeValidity (some "promo") envHalf =
        .error .rangeError :=
  ⟨(addUrl_keeps_free_custom_code storeI "https://example.com/p" (.number 10) "promo" envHalf
      (by decide) (by decide)).1 (by decide),
    ((addUrl_keeps_free_custom_code storeI "https://example.com/p" hugeValidity "promo" envHalf
      (by decide) (by decide)).2.1 (by decide)).1⟩

/-- C5, counterexample: `Date.now()` reads 1700000000000 in line 57 and `new Date()` reads
1700000000001 in line 58; with the validity omitted the record has expiry 1700001800000, which
is not its createdAt plus 30 minutes, 1700001800001. -/
theorem expiry_not_createdAt_plus_validity :
    addUrl [] "https://example.com" .undefined none envHalf =
        .ok ("i", [{ id := "id-1", longUrl := "https://example.com", shortCode := "i",
                     createdAt := 1700000000001, expiry := 1700001800000, clicks := [] }]) ∧
      (1700001800000 : Int) ≠ 1700000000001 + 30 * 60000 :=
  ⟨rfl, by decide⟩

/-- C5, amended: let validityMinutes be the given validity, or 30 when it is omitted or falsy.
When the reading of `Date.now()` plus validityMinutes * 60000 ms is a valid date (at most
8640000000000000 ms from the epoch), the record appended by `addUrl` has that time as expiry and
the reading of `new Date()`, taken one line later, as createdAt; so expiry is createdAt plus
validityMinutes minutes exactly when the two readings are the same. When that time is not a valid
date the call throws a RangeError and appends no record. -/
theorem addUrl_expiry (urls : List UrlRecord) (longUrl : String) (validity : JsValidity)
    (shortcode : Option String) (env : AddUrlEnv) :
    ∃ validityMinutes : Int,
      (∀ n : Int, validity = .number n → n ≠ 0 → validityMinutes = n) ∧
      (validity = .undefined ∨ validity = .null ∨ validity = .nan ∨ validity = .emptyString ∨
        validity = .number 0 → validityMinutes = 30) ∧
      (-8640000000000000 ≤ env.dateNow + validityMinutes * 60000 ∧
          env.dateNow + validityMinutes * 60000 ≤ 8640000000000000 →
        ∃ (code : String) (r : UrlRecord),
          addUrl urls longUrl validity shortcode env = .ok (code, urls ++ [r]) ∧
          r.createdAt = env.newDate ∧
          r.expiry = env.dateNow + validityMinutes * 60000 ∧
          (r.expiry = r.createdAt + validityMinutes * 60000 ↔ env.dateNow = env.newDate)) ∧
      (¬ (-8640000000000000 ≤ env.dateNow + validityMinutes * 60000 ∧
          env.dateNow + validityMinutes * 60000 ≤ 8640000000000000) →
        addUrl urls longUrl validity shortcode env = .error .rangeError ∧
        step urls (.addUrl longUrl validity shortcode env) = urls) := by
  refine ⟨validityOrDefault validity, ?_, ?_, ?_, ?_⟩
  · intro n hv hn
    simp [hv, validityOrDefault, hn]
  · intro h
    rcases h with h | h | h | h | h <;> simp [h, validityOrDefault]
  · intro hr
    have hr1 : inDateRange (expiryTime validity env) = true := by
      simp only [inDateRange, expiryTime, decide_eq_true_eq]
      exact hr
    rw [addUrl_of_inDateRange urls longUrl validity shortcode env hr1]
    refine ⟨_, _, rfl, rfl, rfl, ?_⟩
    simp only [expiryTime]
    constructor
    · intro h; omega
    · intro h; rw [h]
  · intro hr
    have hr1 : inDateRange (expiryTime validity env) = false := by
      simp only [inDateRange, expiryTime, decide_eq_false_iff_not]
      exact hr
    have he := addUrl_of_not_inDateRange urls longUrl validity shortcode env hr1
    exact ⟨he, by simp [step, he]⟩

/-- C5, the amended claim at validity 5 and equal clock readings, and at a validity that puts
the expiry past the last valid date. -/
theorem addUrl_expiry_witness :
    (∃ (code : String) (r : UrlRecord),
        addUrl storeI "https://example.com/e" (.number 5) none envLong =
          .ok (code, storeI ++ [r]) ∧
        r.createdAt = 1700000000000 ∧ r.expiry = 1700000000000 + 5 * 60000) ∧
      addUrl storeI "https://example.com/e" hugeValidity none envLong = .error .rangeError := by
  obtain ⟨m, h2, _, h4, _⟩ :=
    addUrl_expiry storeI "https://example.com/e" (.number 5) none envLong
  have hm : m = 5 := h2 5 rfl (by decide)
  subst hm
  obtain ⟨code, r, h5, h6, h7, _⟩ := h4 (by decide)
  obtain ⟨m1, k2, _, _, k5⟩ :=
    addUrl_expiry storeI "https://example.com/e" hugeValidity none envLong
  have hm1 : m1 = 143971666667 := k2 143971666667 rfl (by decide)
  subst hm1
  exact ⟨⟨code, r, h5, h6, h7⟩, (k5 (by decide)).1⟩

/-- C6, counterexample: in the collection left by the two calls of `twiceI` two records have the
code `i`; `addClick` on `i` appends a click to both, so the total number of click events rises
by two. -/
theorem addClick_on_duplicates_adds_two :
    shortCodes (run twiceI []) = ["i", "i"] ∧
      totalClicks (run twiceI []) = 0 ∧
      totalClicks (addClick (run twiceI []) "i" none none (fun _ => 1700000000002)) = 2 := by
  decide

/-- C6, amended: `addClick` keeps the record count and the record order; every record whose
shortCode is the given one gets exactly one click event `{time, source, location}` at the end of
its clicks, with time at or after the call time when the clock readings are, its earlier clicks
and its id, longUrl, shortCode, createdAt and expiry unchanged; every other record is unchanged.
The total number of click events rises by the number of records with that shortCode, which is
exactly one when a single record has it. -/
theorem addClick_appends_click (urls : List UrlRecord) (shortCode : String)
    (source location : Option String) (clock : Nat → Int) (callTime : Int)
    (hclock : ∀ i, callTime ≤ clock i) :
    (addClick urls shortCode source location clock).length = urls.length ∧
      (∀ (i : Nat) (u : UrlRecord), urls[i]? = some u → u.shortCode = shortCode →
        ∃ c : Click,
          (addClick urls shortCode source location clock)[i]? =
            some { u with clicks := u.clicks ++ [c] } ∧
          callTime ≤ c.time ∧ c.time = clock i ∧
          c.source = source.getD "direct" ∧ c.location = location.getD "Unknown") ∧
      (∀ (i : Nat) (u : UrlRecord), urls[i]? = some u → u.shortCode ≠ shortCode →
        (addClick urls shortCode source location clock)[i]? = some u) ∧
      totalClicks (addClick urls shortCode source location clock) =
        totalClicks urls + (shortCodes urls).count shortCode ∧
      ((shortCodes urls).count shortCode = 1 →
        totalClicks (addClick urls shortCode source location clock) = totalClicks urls + 1) := by
  refine ⟨addClickFrom_length _ _ _ _ _ _, ?_, ?_, totalClicks_addClickFrom _ _ _ _ _ _, ?_⟩
  · intro i u hu hs
    refine ⟨{ time := clock i, source := source.getD "direct",
              location := location.getD "Unknown" }, ?_, hclock i, rfl, rfl, rfl⟩
    simp only [addClick]
    rw [addClickFrom_getElem?, hu]
    simp [hs]
  · intro i u hu hs
    simp only [addClick]
    rw [addClickFrom_getElem?, hu]
    simp [hs]
  · intro h1
    simp only [addClick]
    rw [totalClicks_addClickFrom, h1]

/-- C6, the amended claim at a collection whose only record has the code `i`: a click with the
default source and location is appended to it. -/
theorem addClick_appends_click_witness :
    addClick storeI "i" none none (fun _ => 1700000000002) =
        [{ id := "id-0", longUrl := "https://example.com", shortCode := "i",
           createdAt := 1700000000000, expiry := 1700001800000,
           clicks := [{ time := 1700000000002, source := "direct", location := "Unknown" }] }] ∧
      totalClicks (addClick storeI "i" none none (fun _ => 1700000000002)) =
        totalClicks storeI + 1 :=
  ⟨by decide,
    (addClick_appends_click storeI "i" none none (fun _ => 1700000000002) 1700000000001
      (fun _ => (by decide : (1700000000001 : Int) ≤ 1700000000002))).2.2.2.2 (by decide)⟩

/-- C7: `addClick` with a shortCode that no record has returns the collection it was given. -/
theorem addClick_unknown_code (urls : List UrlRecord) (shortCode : String)
    (source location : Option String) (clock : Nat → Int)
    (hnone : ∀ u ∈ urls, u.shortCode ≠ shortCode) :
    addClick urls shortCode source location clock = urls :=
  addClickFrom_of_not_mem _ _ _ _ _ _ hnone

/-- C7 at a collection whose only code is `i` and the code `zzz`. -/
theorem addClick_unknown_code_witness :
    addClick storeI "zzz" (some "https://referrer.example") none (fun _ => 1700000000002) =
      storeI :=
  addClick_unknown_code storeI "zzz" (some "https://referrer.example") none
    (fun _ => 1700000000002) (by decide)

/-- C8, counterexample: one `addUrl` call with the validity 143971666667 throws a RangeError in
line 57; after this sequence of one call the collection holds no record. -/
theorem addUrls_throwing_call_adds_nothing :
    addUrls [hugeCall] [] = ([.error .rangeError], []) ∧
      (addUrls [hugeCall] []).2.length ≠ [hugeCall].length :=
  ⟨rfl, by decide⟩

/-- C8, amended: after N `addUrl` calls applied in turn from the empty collection, each with an
expiry time `Date.now() + validityMinutes * 60000` that is a valid date, the collection holds N
records; their longUrls are those of the calls, in call order, and their shortCodes are the
codes the calls returned, in call order. Each such call returns the collection it was applied to
with one record appended at the end, and the collection after one more such call is that of the
earlier calls with one record appended. A call whose expiry time is not a valid date throws a
RangeError, returns no code and leaves the collection as it was. -/
theorem addUrls_records_in_call_order (calls : List AddUrlCall)
    (hrange : ∀ call ∈ calls, inDateRange (expiryTime call.validity call.env) = true) :
    (addUrls calls []).2.length = calls.length ∧
      (addUrls calls []).2.map UrlRecord.longUrl = calls.map AddUrlCall.longUrl ∧
      (addUrls calls []).1 = (shortCodes (addUrls calls []).2).map Except.ok ∧
      (∀ (urls : List UrlRecord) (call : AddUrlCall),
        inDateRange (expiryTime call.validity call.env) = true →
        ∃ r : UrlRecord,
          addUrl urls call.longUrl call.validity call.shortcode call.env =
            .ok (r.shortCode, urls ++ [r]) ∧
          r.longUrl = call.longUrl) ∧
      (∀ (earlier : List AddUrlCall) (call : AddUrlCall),
        inDateRange (expiryTime call.validity call.env) = true →
        ∃ r : UrlRecord,
          (addUrls (earlier ++ [call]) []).2 = (addUrls earlier []).2 ++ [r] ∧
          r.longUrl = call.longUrl ∧
          (addUrls (earlier ++ [call]) []).1 = (addUrls earlier []).1 ++ [.ok r.shortCode]) ∧
      (∀ (earlier : List AddUrlCall) (call : AddUrlCall),
        inDateRange (expiryTime call.validity call.env) = false →
        (addUrls (earlier ++ [call]) []).2 = (addUrls earlier []).2 ∧
        (addUrls (earlier ++ [call]) []).1 = (addUrls earlier []).1 ++ [.error .rangeError]) := by
  obtain ⟨h1, h2, h3⟩ := addUrls_spec calls [] hrange
  refine ⟨by simpa using h1, by simpa using h2, by simpa [shortCodes] using h3.symm, ?_, ?_, ?_⟩
  · intro urls call hr
    rw [addUrl_of_inDateRange urls call.longUrl call.validity call.shortcode call.env hr]
    exact ⟨UrlRecord.mk call.env.uuid call.longUrl (finalCode urls call.shortcode call.env)
      call.env.newDate (expiryTime call.validity call.env) [], rfl, rfl⟩
  · intro earlier call hr
    have ha := addUrl_of_inDateRange (addUrls earlier []).2 call.longUrl call.validity
      call.shortcode call.env hr
    refine ⟨UrlRecord.mk call.env.uuid call.longUrl
      (finalCode (addUrls earlier []).2 call.shortcode call.env) call.env.newDate
      (expiryTime call.validity call.env) [], ?_, rfl, ?_⟩
    · rw [addUrls_append]; simp [addUrls, ha]
    · rw [addUrls_append]; simp [addUrls, ha]
  · intro earlier call hr
    have ha := addUrl_of_not_inDateRange (addUrls earlier []).2 call.longUrl call.validity
      call.shortcode call.env hr
    constructor
    · rw [addUrls_append]; simp [addUrls, ha]
    · rw [addUrls_append]; simp [addUrls, ha]

/-- C8, the amended claim at the three calls of `threeCalls`. -/
theorem addUrls_records_in_call_order_witness :
    (addUrls threeCalls []).2.length = 3 ∧
      (addUrls threeCalls []).2.map UrlRecord.longUrl =
        ["https://example.com/a", "https://example.com/b", "https://example.com/c"] ∧
      (addUrls threeCalls []).1 = [.ok "i", .ok "00be29", .ok "00be29"] :=
  have h := addUrls_records_in_call_order threeCalls (by decide)
  ⟨h.1, h.2.1.trans (by decide), rfl⟩

/-- C9, counterexample: with the text `not valid json` under the key, `JSON.parse` throws a
SyntaxError, nothing catches it, and the initialiser yields no collection. -/
theorem initialUrls_malformed_throws :
    initialUrls (some "not valid json") = .error .syntaxError := by
  rfl

/-- C9, amended: with no value under the key the initialiser yields the empty collection and
raises no error; with a value that is not valid JSON the SyntaxError of `JSON.parse` leaves the
initialiser and no collection is produced; a value that parses yields the parsed value, or the
empty collection when that value is falsy. -/
theorem initialUrls_cases :
    initialUrls none = .ok (.array []) ∧
      (∀ (text : String) (e : JsError), JSON_parse text = .error e →
        initialUrls (some text) = .error e) ∧
      (∀ (text : String) (v : JsonValue), JSON_parse text = .ok v →
        initialUrls (some text) = .ok (if truthy v then v else .array [])) := by
  refine ⟨rfl, ?_, ?_⟩
  · intro text e h
    simp [initialUrls, h]
  · intro text v h
    simp [initialUrls, h]

/-- C9, the amended claim at the truncated text `[1,2`. -/
theorem initialUrls_cases_witness :
    JSON_parse "[1,2" = .error .syntaxError ∧
      initialUrls (some "[1,2") = .error .syntaxError :=
  ⟨rfl, initialUrls_cases.2.1 "[1,2" .syntaxError rfl⟩

/-- C10, counterexample: after the two calls of `staggeredK` two records have the code `k`, the
first with expiry 1700000060000 and the second with expiry 1700003600000. At the time
1700000120000 a record with the code `k` exists whose expiry the time does not exceed, yet the
lookup finds the first record, which has expired: no click is recorded, no redirect happens and
the collection is unchanged. -/
theorem redirect_checks_first_match_only :
    (run staggeredK []).map (fun u => (u.shortCode, u.expiry)) =
        [("k", 1700000060000), ("k", 1700003600000)] ∧
      (∃ u ∈ run staggeredK [], u.shortCode = "k" ∧ ¬ (1700000120000 : Int) > u.expiry) ∧
      (redirectEffect (run staggeredK []) "k" 1700000120000 ""
        (fun _ => 1700000120000)).addClickCalled = false ∧
      (redirectEffect (run staggeredK []) "k" 1700000120000 ""
        (fun _ => 1700000120000)).outcome = .expired ∧
      (redirectEffect (run staggeredK []) "k" 1700000120000 ""
        (fun _ => 1700000120000)).urls = run staggeredK [] := by
  decide

/-- C10, amended: the effect of `RedirectPage` calls `addClick` and redirects to the longUrl of
the record found for the short code if and only if the lookup `urls.find` finds a record, the
first with exactly that shortCode, and the current time does not exceed the expiry of that
record; the collection is then the one `addClick` returns, with more click events than before.
When the current time exceeds the expiry of the record found, or no record has the short code,
`addClick` is not called and the collection is unchanged. When at most one record has the short
code, the record found is the record with that code, and the click is recorded if and only if
a record with that shortCode exists whose expiry the current time does not exceed. -/
theorem redirectEffect_clicks_iff_found_and_unexpired (urls : List UrlRecord)
    (shortCode : String) (now : Int) (referrer : String) (clock : Nat → Int) :
    (((redirectEffect urls shortCode now referrer clock).addClickCalled = true ∧
        ∃ u : UrlRecord, findByCode urls shortCode = some u ∧
          (redirectEffect urls shortCode now referrer clock).outcome = .redirected u.longUrl) ↔
      ∃ u : UrlRecord, findByCode urls shortCode = some u ∧ ¬ now > u.expiry) ∧
    (∀ u : UrlRecord, findByCode urls shortCode = some u → ¬ now > u.expiry →
      (redirectEffect urls shortCode now referrer clock).urls =
          addClick urls shortCode (some (if referrer = "" then "direct" else referrer))
            (some "Unknown") clock ∧
        totalClicks urls < totalClicks (redirectEffect urls shortCode now referrer clock).urls) ∧
    (∀ u : UrlRecord, findByCode urls shortCode = some u → now > u.expiry →
      (redirectEffect urls shortCode now referrer clock).addClickCalled = false ∧
        (redirectEffect urls shortCode now referrer clock).outcome = .expired ∧
        (redirectEffect urls shortCode now referrer clock).urls = urls) ∧
    (shortCode ∉ shortCodes urls →
      (redirectEffect urls shortCode now referrer clock).addClickCalled = false ∧
        (redirectEffect urls shortCode now referrer clock).outcome = .notFound ∧
        (redirectEffect urls shortCode now referrer clock).urls = urls) ∧
    (∀ u : UrlRecord, findByCode urls shortCode = some u → u ∈ urls ∧ u.shortCode = shortCode) ∧
    (shortCode ∈ shortCodes urls → ∃ u : UrlRecord, findByCode urls shortCode = some u) ∧
    ((shortCodes urls).count shortCode ≤ 1 →
      ((redirectEffect urls shortCode now referrer clock).addClickCalled = true ↔
        ∃ u ∈ urls, u.shortCode = shortCode ∧ ¬ now > u.expiry)) := by
  refine ⟨?_, ?_, ?_, ?_, ?_, ?_, ?_⟩
  · cases hf : findByCode urls shortCode with
    | none => simp [redirectEffect, hf]
    | some v =>
      by_cases hx : now > v.expiry
      · simp [redirectEffect, hf, hx]
      · simp [redirectEffect, hf, hx]
        omega
  · intro u hf hx
    have hm := findByCode_some urls shortCode u hf
    have hcount : 0 < (shortCodes urls).count shortCode := by
      rw [List.count_pos_iff]
      exact List.mem_map.2 ⟨u, hm.1, hm.2⟩
    have he : (redirectEffect urls shortCode now referrer clock).urls =
        addClick urls shortCode (some (if referrer = "" then "direct" else referrer))
          (some "Unknown") clock := by
      simp [redirectEffect, hf, hx]
    refine ⟨he, ?_⟩
    rw [he]
    simp only [addClick]
    rw [totalClicks_addClickFrom]
    omega
  · intro u hf hx
    simp [redirectEffect, hf, hx]
  · intro hn
    have hf := (findByCode_eq_none_iff urls shortCode).2 hn
    simp [redirectEffect, hf]
  · intro u hf
    exact findByCode_some urls shortCode u hf
  · intro hm
    have h := (findByCode_isSome_iff urls shortCode).2 hm
    exact Option.isSome_iff_exists.1 h
  · intro hcount
    constructor
    · intro hcall
      cases hf : findByCode urls shortCode with
      | none => simp [redirectEffect, hf] at hcall
      | some v =>
        have hm := findByCode_some urls shortCode v hf
        by_cases hx : now > v.expiry
        · simp [redirectEffect, hf, hx] at hcall
        · exact ⟨v, hm.1, hm.2, hx⟩
    · rintro ⟨u, hu, hc, hx⟩
      have hf := findByCode_of_unique urls shortCode u hcount hu hc
      simp [redirectEffect, hf, hx]

/-- C10, the amended claim at a collection whose only record has the code `i` and expiry
1700001800000, visited at that very instant: the click is recorded and the visitor is sent to
the long URL. -/
theorem redirectEffect_clicks_iff_found_and_unexpired_witness :
    (redirectEffect storeI "i" 1700001800000 "" (fun _ => 1700001800000)).addClickCalled = true ∧
      (redirectEffect storeI "i" 1700001800000 "" (fun _ => 1700001800000)).outcome =
        .redirected "https://example.com" ∧
      totalClicks storeI <
        totalClicks (redirectEffect storeI "i" 1700001800000 "" (fun _ => 1700001800000)).urls :=
  have h := redirectEffect_clicks_iff_found_and_unexpired storeI "i" 1700001800000 ""
    (fun _ => 1700001800000)
  ⟨(h.2.2.2.2.2.2 (by decide)).2 ⟨redirectTarget, by decide, by decide, by decide⟩, by decide,
    (h.2.1 (redirectTarget) (by decide) (by decide)).2⟩

end UrlShortener
